import Mathlib

/-!
Verification of the incremental discovery engine of the math-genealogy scraper.

The development shallowly embeds the repository's Python sources:
- parse.py: the `clean` text normalizer and the `parse` record extractor
  (HTML navigation by the external BeautifulSoup library is abstracted as a
  `RawRecord` holding the values the navigation yields);
- fetch.py: the per-ID fetch pipeline (`fetch_by_id`), the ID-range filtering
  of `scan_range`, the consecutive-404 counter loop of `main`, the gap-fill
  decision of `main`, `get_id_range`, `load_existing_data`, and the
  deduplication performed by `save_results`.

The network itself is modelled by a `FetchOutcome` describing what a fetch of
one ID produced; the pipeline's state updates are embedded exactly.
-/

namespace MGS

/-- Node dict built by parse.py `parse` (one graph vertex). Python strings
are modelled as character lists. -/
structure Node where
  id : Nat
  name : Option (List Char)
  school : Option (List Char)
  country : Option (List Char)
  year : Option Int
  subject : Option (List Char)
  deriving DecidableEq, Repr

/-- Edge dict: a directed advisor-to-student relationship. -/
structure Edge where
  advisor_id : Nat
  student_id : Nat
  deriving DecidableEq, Repr

/-- Python `str.strip()` with no argument: drop leading and trailing
whitespace. -/
def pyStrip (s : List Char) : List Char :=
  ((s.dropWhile Char.isWhitespace).reverse.dropWhile Char.isWhitespace).reverse

/-- Python `str.split()` with no argument: the maximal whitespace-free runs,
with empty chunks discarded. -/
def pyWords (s : List Char) : List (List Char) :=
  (s.splitOnP Char.isWhitespace).filter (fun w => !w.isEmpty)

/-- parse.py lines 6-11, `clean`: collapse internal whitespace to single
spaces after stripping; an empty result becomes `none`. -/
def clean (s : List Char) : Option (List Char) :=
  let t := List.intercalate [' '] (pyWords (pyStrip s))
  if t = [] then none else some t

/-- Numeric value of one decimal digit character, when it is one. -/
def digitVal (c : Char) : Option Nat :=
  if c.isDigit then some (c.toNat - 48) else none

/-- Value of a nonempty all-digit character run. -/
def digitsVal (cs : List Char) : Option Nat :=
  match cs with
  | [] => none
  | _ => cs.foldl (fun acc c =>
      match acc, digitVal c with
      | some a, some d => some (a * 10 + d)
      | _, _ => none) (some 0)

/-- Python `int(str)`: optional surrounding whitespace and sign around a
digit run, `none` when the call would raise. -/
def pyInt (s : List Char) : Option Int :=
  match pyStrip s with
  | [] => none
  | c :: cs =>
    if c = '-' then (digitsVal cs).map (fun n => -(n : Int))
    else if c = '+' then (digitsVal cs).map (fun n => (n : Int))
    else (digitsVal (c :: cs)).map (fun n => (n : Int))

/-- parse.py lines 64-71: from the text of the Ph.D. line (when the line was
found), `school` is the slice `[5:-4]` stripped — assigned before the year
parse and kept even when `int` raises — and `year` is the integer value of
the last whitespace-separated word when that parse succeeds. -/
def phdSchoolYear : Option (List Char) → Option (List Char) × Option Int
  | none => (none, none)
  | some t =>
      let school := pyStrip ((t.drop 5).take (t.length - 9))
      let year := match (pyWords t).getLast? with
        | none => none
        | some w => pyInt w
      (some school, year)

/-- Texts that parse.py reads out of the raw HTML through BeautifulSoup
(parse.py lines 46-85): the h2 heading text, the text following the subject
classification label, the flag image's title attribute, the text of the
Ph.D. line container, the advisor link IDs and the student-table link IDs.
The HTML navigation is an external library; this structure is its output,
fed to the pure field construction of parse.py lines 57-71 and 87-114. -/
structure RawRecord where
  nameText : Option (List Char)
  subjectText : Option (List Char)
  countryTitle : Option (List Char)
  phdText : Option (List Char)
  advisors : List Nat
  students : List Nat
  deriving DecidableEq, Repr

/-- parse.py lines 57-71 and 87-114: `name` and `subject` pass through
`clean`, `country` is the title attribute verbatim, `school` and `year`
come from the Ph.D. line; the node carries `id := mgp_id`; each advisor
link `a` yields an edge with `advisor_id := a, student_id := mgp_id`; each
student-table entry `s` yields an edge with `advisor_id := mgp_id,
student_id := s`. -/
def parse (mgp_id : Nat) (r : RawRecord) : Node × List Edge :=
  let sy := phdSchoolYear r.phdText
  ({ id := mgp_id,
     name := match r.nameText with
       | none => none
       | some t => clean t,
     school := sy.1,
     country := r.countryTitle,
     year := sy.2,
     subject := match r.subjectText with
       | none => none
       | some t => clean t },
   r.advisors.map (fun a => { advisor_id := a, student_id := mgp_id })
     ++ r.students.map (fun s => { advisor_id := mgp_id, student_id := s }))

/-- Lookup in a Python dict modelled as an association list with unique keys
in insertion order. -/
def dictLookup : List (Nat × Node) → Nat → Option Node
  | [], _ => none
  | p :: d, k => if p.1 = k then some p.2 else dictLookup d k

/-- One Python dict assignment `d[k] = v`: replace the value at an existing
key in place, otherwise append the new binding at the end. -/
def dictInsert (d : List (Nat × Node)) (k : Nat) (v : Node) : List (Nat × Node) :=
  if k ∈ d.map Prod.fst then d.map (fun p => if p.1 = k then (k, v) else p)
  else d ++ [(k, v)]

/-- One step of the dict comprehension in fetch.py line 259. -/
def insNode (d : List (Nat × Node)) (n : Node) : List (Nat × Node) :=
  dictInsert d n.id n

/-- fetch.py line 259: `node_dict = {node['id']: node for node in nodes}`. -/
def node_dict (ns : List Node) : List (Nat × Node) :=
  ns.foldl insNode []

/-- fetch.py line 260: `unique_nodes = list(node_dict.values())`. -/
def unique_nodes (ns : List Node) : List Node :=
  (node_dict ns).map Prod.snd

/-- fetch.py line 263: the set comprehension over ordered pairs
`(edge['advisor_id'], edge['student_id'])`, modelled as first-occurrence
deduplication of the pair list. -/
def edge_set (es : List Edge) : List (Nat × Nat) :=
  (es.map (fun e => (e.advisor_id, e.student_id))).dedup

/-- fetch.py line 264: rebuild one edge dict per deduplicated pair. -/
def unique_edges (es : List Edge) : List Edge :=
  (edge_set es).map (fun p => { advisor_id := p.1, student_id := p.2 })

/-- Reference function for the last-write-wins specification: the last node
of the list carrying the given ID, if any. -/
def lastWithIdAux (a : Option Node) (ns : List Node) (k : Nat) : Option Node :=
  ns.foldl (fun acc n => if n.id = k then some n else acc) a

/-- The last node of the list whose ID equals `k`. -/
def lastWithId (ns : List Node) (k : Nat) : Option Node :=
  lastWithIdAux none ns k

/-- fetch.py line 14. -/
def BATCH_SIZE : Nat := 200

/-- fetch.py line 15. -/
def CONSECUTIVE_404_THRESHOLD : Nat := 50

/-- What fetching one ID produced, as classified by fetch.py lines 126-155:
a transport failure, the content-level not-found marker, a record that parse
handles, or a record on which parse raises. -/
inductive FetchOutcome where
  | fetchError (msg : String)
  | notFound
  | record (r : RawRecord)
  | badRecord (msg : String)
  deriving DecidableEq, Repr

/-- An outcome whose ID is classified valid (fetch.py line 141 runs). -/
def isValidOutcome : FetchOutcome → Bool
  | .record _ => true
  | .badRecord _ => true
  | _ => false

/-- The global mutable state of fetch.py lines 18-24. -/
structure ScanState where
  errors : Nat → Option String
  nodes : List Node
  edges : List Edge
  bad_ids : Finset Nat
  valid_ids : Finset Nat
  last_valid_id : Nat

/-- Python dict assignment `errors[k] = msg`. -/
def setError (e : Nat → Option String) (k : Nat) (msg : String) : Nat → Option String :=
  fun i => if i = k then some msg else e i

/-- The state the run starts from, given the loaded high-water mark. -/
def initState (l : Nat) : ScanState :=
  { errors := fun _ => none, nodes := [], edges := [], bad_ids := ∅,
    valid_ids := ∅, last_valid_id := l }

/-- fetch.py lines 119-155, `fetch_by_id`: the state update performed for one
ID given what the fetch produced, together with the returned Bool. A fetch
error only records the error; the not-found marker adds the ID to `bad_ids`;
otherwise the ID is added to `valid_ids` and the high-water mark is raised
before parsing is attempted, and a parse failure then only records the
error while a parse success appends the node and its edges. -/
def fetch_by_id (st : ScanState) (mgp_id : Nat) (out : FetchOutcome) : ScanState × Bool :=
  match out with
  | .fetchError msg => ({ st with errors := setError st.errors mgp_id msg }, false)
  | .notFound => ({ st with bad_ids := insert mgp_id st.bad_ids }, false)
  | .record r =>
      let st1 := { st with
        valid_ids := insert mgp_id st.valid_ids,
        last_valid_id := if st.last_valid_id < mgp_id then mgp_id else st.last_valid_id }
      ({ st1 with nodes := st1.nodes ++ [(parse mgp_id r).1],
                  edges := st1.edges ++ (parse mgp_id r).2 }, true)
  | .badRecord msg =>
      let st1 := { st with
        valid_ids := insert mgp_id st.valid_ids,
        last_valid_id := if st.last_valid_id < mgp_id then mgp_id else st.last_valid_id }
      ({ st1 with errors := setError st1.errors mgp_id msg }, false)

/-- A run's fetches in completion order: fold `fetch_by_id` over the observed
outcomes. -/
def runFetches (st : ScanState) (evs : List (Nat × FetchOutcome)) : ScanState :=
  evs.foldl (fun s e => (fetch_by_id s e.1 e.2).1) st

/-- The IDs of the events classified valid. -/
def validIdsOf (evs : List (Nat × FetchOutcome)) : List Nat :=
  (evs.filter (fun e => isValidOutcome e.2)).map Prod.fst

/-- Maximum of a list of naturals, zero on the empty list. -/
def maxList (xs : List Nat) : Nat := xs.foldr max 0

/-- The metadata value written by successive runs, each run loading the value
the previous run wrote (fetch.py line 72 and line 283). -/
def runsLastValid (l0 : Nat) (runs : List (List (Nat × FetchOutcome))) : Nat :=
  runs.foldl (fun l run => (runFetches (initState l) run).last_valid_id) l0

/-- fetch.py lines 158-171: the IDs `scan_range` dispatches — the range
filtered against the existing dataset and the known-bad set, then cut down
when a truthy limit with remaining capacity is in force. -/
def ids_to_scan (start_id end_id : Nat) (existing bad : Finset Nat)
    (limit : Option Nat) (numValid : Nat) : List Nat :=
  let ids := (List.range' start_id (end_id - start_id)).filter
    (fun i => decide (i ∉ existing ∧ i ∉ bad))
  match limit with
  | none => ids
  | some l => if l ≠ 0 ∧ numValid < l then ids.take ((l - numValid) * 3) else ids

/-- fetch.py lines 222-228: one step of the per-batch counter loop — a bad ID
increments, a valid or already-known ID resets to zero, and any other ID
leaves the counter unchanged. -/
def batchCounterStep (bad valid existing : Finset Nat) (c i : Nat) : Nat :=
  if i ∈ bad then c + 1
  else if i ∈ valid ∨ i ∈ existing then 0
  else c

/-- fetch.py lines 220-228: the consecutive-404 counter after scanning the
batch `[current_id, batch_end)` in ascending order, starting from the value
carried over from earlier batches. -/
def batchCounter (bad valid existing : Finset Nat) (current_id batch_end c0 : Nat) : Nat :=
  (List.range' current_id (batch_end - current_id)).foldl
    (batchCounterStep bad valid existing) c0

/-- Counter step as the specification describes it, for comparison with the
embedded `batchCounterStep`: reset to zero on a valid or already-known ID,
increment on every other (bad or unknown) ID. -/
def specCounterStep (valid existing : Finset Nat) (c i : Nat) : Nat :=
  if i ∈ valid ∨ i ∈ existing then 0 else c + 1

/-- Per-batch counter as the specification describes it. -/
def specCounterBatch (valid existing : Finset Nat) (current_id batch_end c0 : Nat) : Nat :=
  (List.range' current_id (batch_end - current_id)).foldl
    (specCounterStep valid existing) c0

/-- fetch.py lines 213-238: one frontier iteration — the batch end, the
counter recomputed over the whole batch, and whether the loop stops, which
compares only the counter's final value against the threshold. -/
def frontierBatch (bad valid existing : Finset Nat) (thr current_id batchSize c0 : Nat) :
    Nat × Nat × Bool :=
  let batch_end := current_id + batchSize
  let c := batchCounter bad valid existing current_id batch_end c0
  (batch_end, c, decide (thr ≤ c))

/-- Python truthiness of the optional `--limit` argument. -/
def limitTruthy : Option Nat → Bool
  | none => false
  | some n => n != 0

/-- fetch.py lines 195-201: whether the gap-fill scan runs, and the cursor
value afterwards — `max(existing) + 1` when it ran, unchanged otherwise. -/
def gapFillPhase (existing : Finset Nat) (limit : Option Nat) (current_id : Nat) :
    Bool × Nat :=
  if existing.Nonempty ∧ limitTruthy limit = false ∧ current_id < existing.sup id
  then (true, existing.sup id + 1)
  else (false, current_id)

/-- Gap-fill entry condition as the specification phrases it, for comparison:
some ID below the previous maximum is known neither valid nor bad. -/
def specEntersGapFill (existing bad : Finset Nat) : Prop :=
  ∃ i, i < existing.sup id ∧ i ∉ existing ∧ i ∉ bad

/-- The metadata dict after the `.get` defaulting of fetch.py lines 71-72
and 89. -/
structure Metadata where
  id_min : Nat
  last_valid_id : Nat
  bad_ids : List Nat
  deriving DecidableEq, Repr

/-- The data.json contents. -/
structure DataJson where
  nodes : List Node
  edges : List Edge
  deriving DecidableEq, Repr

/-- fetch.py lines 27-80, `load_existing_data`: seed nodes, edges, bad IDs
and the high-water mark from the optional prior files; absence of a file
yields the empty collections and zero. Returns the loaded metadata last. -/
def load_existing_data (dataFile : Option DataJson) (metadataFile : Option Metadata) :
    List Node × List Edge × Finset Nat × Nat × Option Metadata :=
  let loaded := match dataFile with
    | some d => (d.nodes, d.edges)
    | none => ([], [])
  match metadataFile with
  | some md => (loaded.1, loaded.2, md.bad_ids.toFinset, md.last_valid_id, some md)
  | none => (loaded.1, loaded.2, (∅ : Finset Nat), 0, none)

/-- fetch.py lines 83-106, `get_id_range`: the minimum ID, the start cursor
(`last_valid_id + 1` when metadata exists and the mark is positive, the
override winning when supplied), the estimate, and the existing-ID set. -/
def get_id_range (metadata : Option Metadata) (last_valid_id : Nat) (ns : List Node)
    (start_id_override : Option Nat) : Nat × Nat × Nat × Finset Nat :=
  let existing := (ns.map Node.id).toFinset
  let pair := match metadata with
    | some md => (md.id_min, if 0 < last_valid_id then last_valid_id + 1 else md.id_min)
    | none => (1, 1)
  let id_start := match start_id_override with
    | some s => s
    | none => pair.2
  (pair.1, id_start, id_start + BATCH_SIZE, existing)

/-- A fixed error message used by concrete instances. -/
def errMsg : String := "unparsable record"

/-- Concrete node used by witnesses: ID 1, year 1. -/
def nodeA : Node :=
  { id := 1, name := none, school := none, country := none,
    year := some 1, subject := none }

/-- Concrete node used by witnesses: ID 1, year 2. -/
def nodeB : Node :=
  { id := 1, name := none, school := none, country := none,
    year := some 2, subject := none }

/-- Concrete raw record used by witnesses: one advisor link, one student. -/
def rawEx : RawRecord :=
  { nameText := none, subjectText := none, countryTitle := none,
    phdText := none, advisors := [2], students := [3] }

/-- A Ph.D. line whose slice between the label and the year strips to the
empty string. -/
def phdEx : List Char :=
  ['P', 'h', '.', 'D', '.', ' ', '1', '9', '9', '8']

/-- Concrete raw record whose extracted school is the empty string. -/
def recEx : RawRecord :=
  { nameText := none, subjectText := none, countryTitle := none,
    phdText := some phdEx, advisors := [], students := [] }

/-- Concrete metadata used by witnesses. -/
def mdEx : Metadata := { id_min := 1, last_valid_id := 5, bad_ids := [] }

/-! ## Helper lemmas on the dict embedding -/

theorem dictLookup_map_ne (d : List (Nat × Node)) (k : Nat) (v : Node) (k' : Nat)
    (h : k' ≠ k) :
    dictLookup (d.map (fun p => if p.1 = k then (k, v) else p)) k' = dictLookup d k' := by
  induction d with
  | nil => rfl
  | cons p d ih =>
    by_cases hp : p.1 = k
    · simp only [List.map_cons, if_pos hp, dictLookup]
      rw [if_neg (fun hh => h hh.symm), if_neg (fun hh => h (hp ▸ hh).symm), ih]
    · simp only [List.map_cons, if_neg hp, dictLookup, ih]

theorem dictLookup_map_eq (d : List (Nat × Node)) (k : Nat) (v : Node)
    (hk : k ∈ d.map Prod.fst) :
    dictLookup (d.map (fun p => if p.1 = k then (k, v) else p)) k = some v := by
  induction d with
  | nil => simp at hk
  | cons p d ih =>
    by_cases hp : p.1 = k
    · simp [List.map_cons, if_pos hp, dictLookup]
    · simp only [List.map_cons, if_neg hp, dictLookup, if_neg hp]
      refine ih ?_
      rcases List.mem_map.mp hk with ⟨q, hq, hqk⟩
      rcases List.mem_cons.mp hq with rfl | hq'
      · exact absurd hqk hp
      · exact List.mem_map.mpr ⟨q, hq', hqk⟩

theorem dictLookup_append_single (d : List (Nat × Node)) (k : Nat) (v : Node) (k' : Nat)
    (hk : k ∉ d.map Prod.fst) :
    dictLookup (d ++ [(k, v)]) k' = if k' = k then some v else dictLookup d k' := by
  induction d with
  | nil =>
    by_cases h : k' = k
    · subst h; simp [dictLookup]
    · rw [if_neg h]
      show (if k = k' then some v else dictLookup [] k') = dictLookup [] k'
      rw [if_neg (fun hh => h hh.symm)]
  | cons p d ih =>
    have hp : p.1 ≠ k := fun hh => hk (by simp [hh])
    have hk' : k ∉ d.map Prod.fst := fun hh => hk (by simp [hh])
    by_cases h : k' = k
    · subst h
      simp only [List.cons_append, dictLookup, List.append_eq, if_neg hp, ih hk']
    · simp only [List.cons_append, dictLookup, List.append_eq, ih hk', if_neg h]

theorem dictLookup_insert (d : List (Nat × Node)) (k : Nat) (v : Node) (k' : Nat) :
    dictLookup (dictInsert d k v) k' = if k' = k then some v else dictLookup d k' := by
  unfold dictInsert
  by_cases hk : k ∈ d.map Prod.fst
  · rw [if_pos hk]
    by_cases h : k' = k
    · subst h; rw [dictLookup_map_eq d k' v hk, if_pos rfl]
    · rw [dictLookup_map_ne d k v k' h, if_neg h]
  · rw [if_neg hk]; exact dictLookup_append_single d k v k' hk

theorem keys_map_replace (d : List (Nat × Node)) (k : Nat) (v : Node) :
    (d.map (fun p => if p.1 = k then (k, v) else p)).map Prod.fst = d.map Prod.fst := by
  induction d with
  | nil => rfl
  | cons p d ih =>
    by_cases hp : p.1 = k <;> simp [hp, ih]

theorem keys_insert (d : List (Nat × Node)) (k : Nat) (v : Node) :
    (dictInsert d k v).map Prod.fst =
      if k ∈ d.map Prod.fst then d.map Prod.fst else d.map Prod.fst ++ [k] := by
  unfold dictInsert
  by_cases hk : k ∈ d.map Prod.fst
  · rw [if_pos hk, if_pos hk, keys_map_replace]
  · rw [if_neg hk, if_neg hk]; simp

theorem nodupKeys_insert (d : List (Nat × Node)) (k : Nat) (v : Node)
    (h : (d.map Prod.fst).Nodup) : ((dictInsert d k v).map Prod.fst).Nodup := by
  rw [keys_insert]
  by_cases hk : k ∈ d.map Prod.fst
  · rw [if_pos hk]; exact h
  · rw [if_neg hk]
    simp only [List.nodup_append, List.nodup_cons, List.not_mem_nil, not_false_iff,
      List.nodup_nil, and_true, true_and]
    exact ⟨h, by simpa [List.disjoint_singleton] using hk⟩

theorem keys_mem_insert (d : List (Nat × Node)) (k : Nat) (v : Node) (k' : Nat) :
    k' ∈ (dictInsert d k v).map Prod.fst ↔ k' = k ∨ k' ∈ d.map Prod.fst := by
  rw [keys_insert]
  by_cases hk : k ∈ d.map Prod.fst
  · rw [if_pos hk]
    constructor
    · exact Or.inr
    · rintro (rfl | h)
      · exact hk
      · exact h
  · rw [if_neg hk]; simp [or_comm]

theorem pairInv_insert (d : List (Nat × Node)) (k : Nat) (v : Node) (hv : v.id = k)
    (h : ∀ p ∈ d, p.2.id = p.1) : ∀ p ∈ dictInsert d k v, p.2.id = p.1 := by
  unfold dictInsert
  by_cases hk : k ∈ d.map Prod.fst
  · rw [if_pos hk]
    intro p hp
    rcases List.mem_map.mp hp with ⟨q, hq, hqp⟩
    by_cases hqk : q.1 = k
    · rw [if_pos hqk] at hqp; rw [← hqp]; exact hv
    · rw [if_neg hqk] at hqp; rw [← hqp]; exact h q hq
  · rw [if_neg hk]
    intro p hp
    rcases List.mem_append.mp hp with hp' | hp'
    · exact h p hp'
    · rcases List.mem_singleton.mp hp' with rfl
      exact hv

theorem foldIns_lookup : ∀ (ns : List Node) (d : List (Nat × Node)) (k : Nat),
    dictLookup (ns.foldl insNode d) k = lastWithIdAux (dictLookup d k) ns k := by
  intro ns
  induction ns with
  | nil => intro d k; rfl
  | cons n ns ih =>
    intro d k
    show dictLookup (ns.foldl insNode (insNode d n)) k =
      lastWithIdAux (if n.id = k then some n else dictLookup d k) ns k
    rw [ih]
    have h : dictLookup (insNode d n) k = if n.id = k then some n else dictLookup d k := by
      unfold insNode
      rw [dictLookup_insert]
      by_cases hk : k = n.id
      · rw [if_pos hk, if_pos hk.symm]
      · rw [if_neg hk, if_neg (fun hh => hk hh.symm)]
    rw [h]

theorem foldIns_nodupKeys : ∀ (ns : List Node) (d : List (Nat × Node)),
    (d.map Prod.fst).Nodup → ((ns.foldl insNode d).map Prod.fst).Nodup := by
  intro ns
  induction ns with
  | nil => intro d h; exact h
  | cons n ns ih =>
    intro d h
    exact ih (insNode d n) (nodupKeys_insert d n.id n h)

theorem foldIns_pairInv : ∀ (ns : List Node) (d : List (Nat × Node)),
    (∀ p ∈ d, p.2.id = p.1) → ∀ p ∈ ns.foldl insNode d, p.2.id = p.1 := by
  intro ns
  induction ns with
  | nil => intro d h; exact h
  | cons n ns ih =>
    intro d h
    exact ih (insNode d n) (pairInv_insert d n.id n rfl h)

theorem foldIns_keys_mem : ∀ (ns : List Node) (d : List (Nat × Node)) (k : Nat),
    k ∈ (ns.foldl insNode d).map Prod.fst ↔
      k ∈ d.map Prod.fst ∨ ∃ n ∈ ns, n.id = k := by
  intro ns
  induction ns with
  | nil => intro d k; simp
  | cons n ns ih =>
    intro d k
    show k ∈ ((ns.foldl insNode (insNode d n)).map Prod.fst) ↔ _
    rw [ih]
    unfold insNode
    rw [keys_mem_insert]
    simp only [List.mem_cons]
    constructor
    · rintro ((rfl | h) | ⟨m, hm, rfl⟩)
      · exact Or.inr ⟨n, Or.inl rfl, rfl⟩
      · exact Or.inl h
      · exact Or.inr ⟨m, Or.inr hm, rfl⟩
    · rintro (h | ⟨m, rfl | hm, rfl⟩)
      · exact Or.inl (Or.inr h)
      · exact Or.inl (Or.inl rfl)
      · exact Or.inr ⟨m, hm, rfl⟩

theorem dictLookup_of_mem : ∀ (d : List (Nat × Node)) (k : Nat) (n : Node),
    (d.map Prod.fst).Nodup → (k, n) ∈ d → dictLookup d k = some n := by
  intro d
  induction d with
  | nil => intro k n _ hm; simp at hm
  | cons p d ih =>
    intro k n hnd hm
    rcases List.mem_cons.mp hm with rfl | hm'
    · show (if k = k then some n else _) = some n
      rw [if_pos rfl]
    · have hk : k ∈ d.map Prod.fst := List.mem_map.mpr ⟨(k, n), hm', rfl⟩
      rw [List.map_cons] at hnd
      rcases List.nodup_cons.mp hnd with ⟨hpm, hnd'⟩
      have hp : p.1 ≠ k := fun hh => hpm (hh ▸ hk)
      show (if p.1 = k then some p.2 else dictLookup d k) = some n
      rw [if_neg hp]
      exact ih k n hnd' hm'

theorem uniqueNodes_ids (ns : List Node) :
    (unique_nodes ns).map Node.id = (node_dict ns).map Prod.fst := by
  unfold unique_nodes
  rw [List.map_map]
  refine List.map_congr_left ?_
  intro p hp
  exact foldIns_pairInv ns [] (by simp) p hp

theorem uniqueEdges_pairs (es : List Edge) :
    (unique_edges es).map (fun e => (e.advisor_id, e.student_id)) = edge_set es := by
  unfold unique_edges
  rw [List.map_map]
  have : ((fun e : Edge => (e.advisor_id, e.student_id)) ∘
      (fun p : Nat × Nat => ({ advisor_id := p.1, student_id := p.2 } : Edge))) =
      (id : Nat × Nat → Nat × Nat) := by
    funext p; rfl
  rw [this, List.map_id]

theorem fetchByIdLast (st : ScanState) (m : Nat) (o : FetchOutcome) :
    (fetch_by_id st m o).1.last_valid_id =
      if isValidOutcome o then max st.last_valid_id m else st.last_valid_id := by
  have hmax : (if st.last_valid_id < m then m else st.last_valid_id) =
      max st.last_valid_id m := by
    split <;> omega
  cases o <;> simp [fetch_by_id, isValidOutcome, hmax]

theorem runFetchesLast : ∀ (evs : List (Nat × FetchOutcome)) (st : ScanState),
    (runFetches st evs).last_valid_id =
      max st.last_valid_id (maxList (validIdsOf evs)) := by
  intro evs
  induction evs with
  | nil => intro st; simp [runFetches, validIdsOf, maxList]
  | cons e evs ih =>
    intro st
    obtain ⟨m, o⟩ := e
    show (runFetches (fetch_by_id st m o).1 evs).last_valid_id = _
    rw [ih, fetchByIdLast]
    cases h : isValidOutcome o with
    | true =>
      simp only [if_pos rfl, validIdsOf, List.filter_cons, h, maxList,
        List.map_cons, List.foldr]
      exact Nat.max_assoc _ _ _
    | false =>
      simp [validIdsOf, List.filter_cons, h, maxList]

theorem runsLastValidMono : ∀ (runs : List (List (Nat × FetchOutcome))) (l0 : Nat),
    l0 ≤ runsLastValid l0 runs := by
  intro runs
  induction runs with
  | nil => intro l0; exact Nat.le_refl l0
  | cons run runs ih =>
    intro l0
    show l0 ≤ runsLastValid (runFetches (initState l0) run).last_valid_id runs
    refine Nat.le_trans ?_ (ih _)
    rw [runFetchesLast]
    exact Nat.le_max_left _ _

/-! ## Claim theorems -/

/-- C2 counterexample: the claim says an ID whose record fails extraction is
added to neither the valid-ID set nor the known-bad set; but `fetch_by_id`
adds the ID to `valid_ids` before attempting to parse, so after an
extraction failure on ID 7 the valid set does contain 7. -/
theorem C2_counterexample :
    7 ∈ ((fetch_by_id (initState 0) 7 (FetchOutcome.badRecord errMsg)).1).valid_ids := by
  simp [fetch_by_id, initState]

/-- C2 (amended): when extraction fails, the ID has already been added to
`valid_ids` (so it does count toward this run's discoveries), but it is not
added to `bad_ids`, no node or edge is stored, only the error map is
extended, and the call reports failure. The ID ends up in neither the
persisted dataset nor the bad set, so the scan filter never skips it: every
scanned range containing it dispatches it again. However the high-water
mark has been raised to at least this ID, so the next run's default
frontier start, `last_valid_id + 1`, lies strictly past it. -/
theorem C2_extraction_error : ∀ (st : ScanState) (m : Nat) (msg : String),
    m ∈ ((fetch_by_id st m (FetchOutcome.badRecord msg)).1).valid_ids
    ∧ ((fetch_by_id st m (FetchOutcome.badRecord msg)).1).bad_ids = st.bad_ids
    ∧ ((fetch_by_id st m (FetchOutcome.badRecord msg)).1).nodes = st.nodes
    ∧ ((fetch_by_id st m (FetchOutcome.badRecord msg)).1).edges = st.edges
    ∧ ((fetch_by_id st m (FetchOutcome.badRecord msg)).1).errors = setError st.errors m msg
    ∧ (fetch_by_id st m (FetchOutcome.badRecord msg)).2 = false
    ∧ m ≤ ((fetch_by_id st m (FetchOutcome.badRecord msg)).1).last_valid_id
    ∧ (∀ s e nv : Nat, s ≤ m → m < e →
        m ∉ (st.nodes.map Node.id).toFinset → m ∉ st.bad_ids →
        m ∈ ids_to_scan s e
          ((((fetch_by_id st m (FetchOutcome.badRecord msg)).1).nodes.map
              Node.id).toFinset)
          (((fetch_by_id st m (FetchOutcome.badRecord msg)).1).bad_ids) none nv)
    ∧ (∀ (md : Metadata) (ns : List Node), 0 < m →
        (get_id_range (some md)
            ((fetch_by_id st m (FetchOutcome.badRecord msg)).1).last_valid_id
            ns none).2.1
          = ((fetch_by_id st m (FetchOutcome.badRecord msg)).1).last_valid_id + 1
        ∧ m < (get_id_range (some md)
            ((fetch_by_id st m (FetchOutcome.badRecord msg)).1).last_valid_id
            ns none).2.1) := by
  intro st m msg
  have hlast : ((fetch_by_id st m (FetchOutcome.badRecord msg)).1).last_valid_id =
      max st.last_valid_id m := by
    simpa [isValidOutcome] using fetchByIdLast st m (FetchOutcome.badRecord msg)
  refine ⟨by simp [fetch_by_id], rfl, rfl, rfl, rfl, rfl, ?_, ?_, ?_⟩
  · rw [hlast]
    exact Nat.le_max_right _ _
  · intro s e nv hs he hex hbad
    simp only [ids_to_scan]
    refine List.mem_filter.mpr ⟨?_, decide_eq_true ⟨hex, hbad⟩⟩
    exact List.mem_range'_1.mpr ⟨hs, by omega⟩
  · intro md ns hm
    have hpos : 0 < ((fetch_by_id st m (FetchOutcome.badRecord msg)).1).last_valid_id :=
      lt_of_lt_of_le hm (by rw [hlast]; exact Nat.le_max_right _ _)
    have hstart : (get_id_range (some md)
        ((fetch_by_id st m (FetchOutcome.badRecord msg)).1).last_valid_id ns none).2.1
        = ((fetch_by_id st m (FetchOutcome.badRecord msg)).1).last_valid_id + 1 := by
      simp [get_id_range, hpos]
    refine ⟨hstart, ?_⟩
    rw [hstart, hlast]
    exact Nat.lt_succ_of_le (Nat.le_max_right _ _)

/-- C2 witness: after an extraction failure on ID 7 starting from the empty
state, a scan of a range containing 7 dispatches it again, while the next
run's default frontier start computed from the raised high-water mark is 8,
strictly past the failing ID. -/
theorem C2_extraction_error_witness :
    7 ∈ ids_to_scan 7 8
      ((((fetch_by_id (initState 0) 7 (FetchOutcome.badRecord errMsg)).1).nodes.map
          Node.id).toFinset)
      (((fetch_by_id (initState 0) 7 (FetchOutcome.badRecord errMsg)).1).bad_ids)
      none 0
    ∧ (get_id_range (some mdEx)
        ((fetch_by_id (initState 0) 7 (FetchOutcome.badRecord errMsg)).1).last_valid_id
        [] none).2.1 = 8
    ∧ 7 < (get_id_range (some mdEx)
        ((fetch_by_id (initState 0) 7 (FetchOutcome.badRecord errMsg)).1).last_valid_id
        [] none).2.1 := by
  have h := C2_extraction_error (initState 0) 7 errMsg
  refine ⟨h.2.2.2.2.2.2.2.1 7 8 0 (by decide) (by decide) (by decide) (by decide),
    ?_, (h.2.2.2.2.2.2.2.2 mdEx [] (by decide)).2⟩
  exact (h.2.2.2.2.2.2.2.2 mdEx [] (by decide)).1

/-- C3 counterexample: with both orientations of the pair accumulated, the
snapshot keeps two edges over the unordered pair consisting of 1 and 2 —
the claim said exactly one would remain. -/
theorem C3_counterexample :
    Edge.mk 1 2 ∈ unique_edges [Edge.mk 1 2, Edge.mk 2 1]
    ∧ Edge.mk 2 1 ∈ unique_edges [Edge.mk 1 2, Edge.mk 2 1]
    ∧ (unique_edges [Edge.mk 1 2, Edge.mk 2 1]).length = 2 := by
  decide

/-- C3 (amended): snapshot edges deduplicate by the ordered pair of
advisor_id and student_id; when both the edge and its reversal were
accumulated, both survive into the snapshot, and the persisted pairs carry
no duplicates. -/
theorem C3_edge_dedup_ordered : ∀ (es : List Edge) (a b : Nat),
    Edge.mk a b ∈ es → Edge.mk b a ∈ es →
    Edge.mk a b ∈ unique_edges es ∧ Edge.mk b a ∈ unique_edges es ∧
    ((unique_edges es).map (fun e => (e.advisor_id, e.student_id))).Nodup := by
  intro es a b hab hba
  have hmem : ∀ x y : Nat, Edge.mk x y ∈ es → Edge.mk x y ∈ unique_edges es := by
    intro x y hxy
    unfold unique_edges edge_set
    refine List.mem_map.mpr ⟨(x, y), ?_, rfl⟩
    rw [List.mem_dedup]
    exact List.mem_map.mpr ⟨Edge.mk x y, hxy, rfl⟩
  refine ⟨hmem a b hab, hmem b a hba, ?_⟩
  rw [uniqueEdges_pairs]
  exact List.nodup_dedup _

/-- C3 witness: both orientations of the pair of 1 and 2 survive into the
snapshot of a run that accumulated both. -/
theorem C3_edge_dedup_ordered_witness :
    Edge.mk 1 2 ∈ unique_edges [Edge.mk 1 2, Edge.mk 2 1]
    ∧ Edge.mk 2 1 ∈ unique_edges [Edge.mk 1 2, Edge.mk 2 1] := by
  have h := C3_edge_dedup_ordered [Edge.mk 1 2, Edge.mk 2 1] 1 2 (by decide) (by decide)
  exact ⟨h.1, h.2.1⟩

/-- C7: the IDs `scan_range` dispatches are disjoint from the union of the
existing dataset's IDs and the known-bad set, for every scanned range in
either phase. -/
theorem C7_no_refetch : ∀ (s e : Nat) (existing bad : Finset Nat)
    (limit : Option Nat) (nv i : Nat),
    i ∈ ids_to_scan s e existing bad limit nv → i ∉ existing ∧ i ∉ bad := by
  intro s e existing bad limit nv i hi
  have hbase : ∀ j, j ∈ (List.range' s (e - s)).filter
      (fun j => decide (j ∉ existing ∧ j ∉ bad)) → j ∉ existing ∧ j ∉ bad := by
    intro j hj
    exact of_decide_eq_true (List.mem_filter.mp hj).2
  cases limit with
  | none =>
    simp only [ids_to_scan] at hi
    exact hbase i hi
  | some l =>
    simp only [ids_to_scan] at hi
    split at hi
    · exact hbase i (List.take_subset _ _ hi)
    · exact hbase i hi

/-- C7 witness: ID 1 is dispatched when scanning 1..5 against existing ID 2
and bad ID 3, and indeed lies in neither set. -/
theorem C7_no_refetch_witness :
    1 ∉ ({2} : Finset Nat) ∧ 1 ∉ ({3} : Finset Nat) :=
  C7_no_refetch 1 5 {2} {3} none 0 1 (by decide)

/-- C8: with no prior snapshot and no prior metadata, loading yields the
empty dataset, no known-bad IDs and a zero high-water mark, and the scan
range starts at ID 1. -/
theorem C8_fresh_start :
    load_existing_data none none = ([], [], (∅ : Finset Nat), 0, none)
    ∧ get_id_range none 0 [] none = (1, 1, 1 + BATCH_SIZE, (∅ : Finset Nat)) := by
  constructor
  · rfl
  · rfl

/-- C9 counterexample: the claim concludes that no node field in the
snapshot is ever the empty string; but the school field bypasses `clean` —
on a record whose Ph.D. line reads only the label and a year, the extracted
node's school is the empty string while the year still parses. -/
theorem C9_counterexample :
    (parse 1 recEx).1.school = some [] ∧ (parse 1 recEx).1.year = some 1998 := by
  decide

/-- C9 (amended): `clean` never returns the empty string and normalizes an
empty or whitespace-only input to absent, so the node fields that pass
through it — name and subject — are never the empty string; the school
field, however, is only stripped, not cleaned, and can remain empty. -/
theorem C9_clean_nonempty : ∀ (s : List Char) (m : Nat) (r : RawRecord),
    clean s ≠ some []
    ∧ ((∀ c ∈ s, c.isWhitespace) → clean s = none)
    ∧ (parse m r).1.name ≠ some []
    ∧ (parse m r).1.subject ≠ some [] := by
  have hclean : ∀ u : List Char, clean u ≠ some [] := by
    intro u
    unfold clean
    by_cases h : List.intercalate [' '] (pyWords (pyStrip u)) = []
    · rw [if_pos h]
      exact fun hc => Option.noConfusion hc
    · rw [if_neg h]
      exact fun hc => h (Option.some.inj hc)
  intro s m r
  refine ⟨hclean s, ?_, ?_, ?_⟩
  · intro hws
    have h1 : s.dropWhile Char.isWhitespace = [] := List.dropWhile_eq_nil_iff.mpr hws
    have h2 : pyStrip s = [] := by
      unfold pyStrip
      rw [h1]
      rfl
    unfold clean
    rw [h2]
    rfl
  · rcases hn : r.nameText with _ | t
    · simp [parse, hn]
    · simpa [parse, hn] using hclean t
  · rcases hn : r.subjectText with _ | t
    · simp [parse, hn]
    · simpa [parse, hn] using hclean t

/-- C9 witness: a two-space input is normalized to absent. -/
theorem C9_clean_nonempty_witness : clean [' ', ' '] = none :=
  (C9_clean_nonempty [' ', ' '] 1 rawEx).2.1 (by decide)

/-- C10: the node built by `parse` carries the record's ID, and every edge
returned has that ID as one endpoint — advisor-link edges as the student,
student-table edges as the advisor. -/
theorem C10_parse_endpoints : ∀ (m : Nat) (r : RawRecord),
    (parse m r).1.id = m ∧
    ∀ e ∈ (parse m r).2,
      (e.student_id = m ∧ e.advisor_id ∈ r.advisors) ∨
      (e.advisor_id = m ∧ e.student_id ∈ r.students) := by
  intro m r
  refine ⟨rfl, ?_⟩
  intro e he
  rcases List.mem_append.mp he with h | h
  · rcases List.mem_map.mp h with ⟨a, ha, rfl⟩
    exact Or.inl ⟨rfl, ha⟩
  · rcases List.mem_map.mp h with ⟨s, hs, rfl⟩
    exact Or.inr ⟨rfl, hs⟩

/-- C10 witness: the advisor-link edge of a concrete record with ID 9 has
student endpoint 9 and its advisor among the record's advisor links. -/
theorem C10_parse_endpoints_witness :
    ((Edge.mk 2 9).student_id = 9 ∧ (Edge.mk 2 9).advisor_id ∈ rawEx.advisors) ∨
    ((Edge.mk 2 9).advisor_id = 9 ∧ (Edge.mk 2 9).student_id ∈ rawEx.students) :=
  (C10_parse_endpoints 9 rawEx).2 (Edge.mk 2 9) (by decide)

/-- C1 counterexample: over a batch whose single ID is unresolved (neither
bad, nor valid, nor existing), the code's counter stays at its carried-over
value 0, while the counter described by the claim — incrementing for every
bad or unknown ID — would read 1. -/
theorem C1_counterexample :
    batchCounter ∅ ∅ ∅ 10 11 0 = 0 ∧ specCounterBatch ∅ ∅ 10 11 0 = 1 := by
  decide

/-- C1 (amended): scanning the batch in ascending order, the counter
increments by 1 on a bad ID, resets to 0 on a valid or already-known ID,
and is left unchanged by an unresolved ID; and the loop's stopping decision
compares only the counter's final value after the whole batch against the
threshold. -/
theorem C1_batch_counter : ∀ (bad valid existing : Finset Nat) (c i thr s n c0 : Nat),
    (i ∈ bad → batchCounterStep bad valid existing c i = c + 1)
    ∧ (i ∉ bad → (i ∈ valid ∨ i ∈ existing) → batchCounterStep bad valid existing c i = 0)
    ∧ (i ∉ bad → i ∉ valid → i ∉ existing → batchCounterStep bad valid existing c i = c)
    ∧ ((frontierBatch bad valid existing thr s n c0).2.2 = true ↔
        thr ≤ batchCounter bad valid existing s (s + n) c0)
    ∧ ((frontierBatch bad valid existing thr s n c0).2.2 = false ↔
        batchCounter bad valid existing s (s + n) c0 < thr) := by
  intro bad valid existing c i thr s n c0
  refine ⟨?_, ?_, ?_, ?_, ?_⟩
  · intro h
    unfold batchCounterStep
    rw [if_pos h]
  · intro h1 h2
    unfold batchCounterStep
    rw [if_neg h1, if_pos h2]
  · intro h1 h2 h3
    unfold batchCounterStep
    rw [if_neg h1, if_neg (by tauto)]
  · simp [frontierBatch]
  · simp [frontierBatch, Nat.not_le]

/-- C1 witness: the three step behaviors at concrete IDs, and the scenario
where the counter transiently reaches the threshold 3 mid-batch (bad IDs
10, 11, 12) but resets at the valid ID 13, so the final value 0 keeps the
loop running. -/
theorem C1_batch_counter_witness :
    batchCounterStep {3} {4} {5} 2 3 = 3
    ∧ batchCounterStep {3} {4} {5} 2 4 = 0
    ∧ batchCounterStep {3} {4} {5} 2 9 = 2
    ∧ (frontierBatch {10, 11, 12} {13} ∅ 3 10 4 0).2.2 = false := by
  refine ⟨?_, ?_, ?_, ?_⟩
  · exact (C1_batch_counter {3} {4} {5} 2 3 0 0 0 0).1 (by decide)
  · exact (C1_batch_counter {3} {4} {5} 2 4 0 0 0 0).2.1 (by decide) (by decide)
  · exact (C1_batch_counter {3} {4} {5} 2 9 0 0 0 0).2.2.1 (by decide) (by decide)
      (by decide)
  · exact ((C1_batch_counter {10, 11, 12} {13} ∅ 0 0 3 10 4 0).2.2.2.2).mpr (by decide)

/-- C4: the high-water mark is updated by one fetch exactly when the outcome
is valid, and then to the maximum of its old value and the ID; over a run it
never drops below the loaded value and equals the maximum of the loaded
value and the valid IDs confirmed during the run; and over any sequence of
runs, each loading what the previous run wrote, the written value never
regresses. -/
theorem C4_last_valid_monotone : ∀ (st : ScanState) (m : Nat) (o : FetchOutcome)
    (evs : List (Nat × FetchOutcome)) (l0 : Nat)
    (runs : List (List (Nat × FetchOutcome))),
    ((fetch_by_id st m o).1.last_valid_id =
      if isValidOutcome o then max st.last_valid_id m else st.last_valid_id)
    ∧ st.last_valid_id ≤ (runFetches st evs).last_valid_id
    ∧ (runFetches st evs).last_valid_id = max st.last_valid_id (maxList (validIdsOf evs))
    ∧ l0 ≤ runsLastValid l0 runs := by
  intro st m o evs l0 runs
  refine ⟨fetchByIdLast st m o, ?_, runFetchesLast evs st, runsLastValidMono runs l0⟩
  rw [runFetchesLast]
  exact Nat.le_max_left _ _

/-- C5: the persisted snapshot holds exactly one node per distinct node ID —
the kept node being the last-received one — and exactly one edge per
distinct ordered advisor/student pair. -/
theorem C5_snapshot_dedup : ∀ (ns : List Node) (es : List Edge),
    ((unique_nodes ns).map Node.id).Nodup
    ∧ (∀ k, k ∈ ns.map Node.id ↔ k ∈ (unique_nodes ns).map Node.id)
    ∧ (∀ n, n ∈ unique_nodes ns → lastWithId ns n.id = some n)
    ∧ ((unique_edges es).map (fun e => (e.advisor_id, e.student_id))).Nodup
    ∧ (∀ p : Nat × Nat,
        p ∈ es.map (fun e => (e.advisor_id, e.student_id)) ↔
        p ∈ (unique_edges es).map (fun e => (e.advisor_id, e.student_id))) := by
  intro ns es
  refine ⟨?_, ?_, ?_, ?_, ?_⟩
  · rw [uniqueNodes_ids]
    exact foldIns_nodupKeys ns [] (by simp)
  · intro k
    rw [uniqueNodes_ids]
    unfold node_dict
    rw [foldIns_keys_mem ns [] k]
    simp [List.mem_map]
  · intro n hn
    unfold unique_nodes at hn
    rcases List.mem_map.mp hn with ⟨p, hp, rfl⟩
    have hinv : p.2.id = p.1 := foldIns_pairInv ns [] (by simp) p hp
    have hnodup := foldIns_nodupKeys ns [] (by simp)
    have hmem : (p.2.id, p.2) ∈ node_dict ns := by
      rw [hinv]
      simpa using hp
    have hlook := dictLookup_of_mem (node_dict ns) p.2.id p.2 hnodup hmem
    show lastWithIdAux (dictLookup [] p.2.id) ns p.2.id = some p.2
    rw [← foldIns_lookup ns [] p.2.id]
    exact hlook
  · rw [uniqueEdges_pairs]
    exact List.nodup_dedup _
  · intro p
    rw [uniqueEdges_pairs]
    exact Iff.symm List.mem_dedup

/-- C5 witness: with two nodes of ID 1 received in order, the node kept by
the snapshot for ID 1 is the last-received one. -/
theorem C5_snapshot_dedup_witness : lastWithId [nodeA, nodeB] 1 = some nodeB :=
  (C5_snapshot_dedup [nodeA, nodeB] []).2.2.1 nodeB (by decide)

/-- C6 counterexample: with existing dataset holding only ID 5, a loaded
high-water mark of 5 (so the cursor starts at 6) and no limit, IDs 1..4
below the previous maximum are known neither valid nor bad — the claim's
entry condition holds — yet the run does not enter the gap-fill phase. -/
theorem C6_counterexample :
    (gapFillPhase {5} none 6).1 = false ∧ specEntersGapFill {5} ∅ := by
  constructor
  · decide
  · exact ⟨1, by decide, by decide, by decide⟩

/-- C6 (amended): the run enters the gap-fill phase exactly when the
existing dataset is nonempty, no truthy limit is given, and the start
cursor is below the maximum existing ID; after a gap-fill the cursor is
`max(existing) + 1`, otherwise it is unchanged, and with positive loaded
high-water mark and no override the frontier starts at `last_valid_id + 1`. -/
theorem C6_gap_fill : ∀ (existing : Finset Nat) (limit : Option Nat)
    (current_id : Nat) (md : Metadata) (lv : Nat) (ns : List Node),
    ((gapFillPhase existing limit current_id).1 = true ↔
      (existing.Nonempty ∧ limitTruthy limit = false ∧ current_id < existing.sup id))
    ∧ ((gapFillPhase existing limit current_id).1 = true →
        (gapFillPhase existing limit current_id).2 = existing.sup id + 1)
    ∧ ((gapFillPhase existing limit current_id).1 = false →
        (gapFillPhase existing limit current_id).2 = current_id)
    ∧ (0 < lv → (get_id_range (some md) lv ns none).2.1 = lv + 1) := by
  intro existing limit current_id md lv ns
  by_cases h : existing.Nonempty ∧ limitTruthy limit = false ∧
      current_id < existing.sup id
  · have hgp : gapFillPhase existing limit current_id =
        (true, existing.sup id + 1) := by
      unfold gapFillPhase
      rw [if_pos h]
    rw [hgp]
    exact ⟨by simp [h], fun _ => rfl, fun hc => by simp at hc,
      fun hlv => by simp [get_id_range, hlv]⟩
  · have hgp : gapFillPhase existing limit current_id = (false, current_id) := by
      unfold gapFillPhase
      rw [if_neg h]
    rw [hgp]
    exact ⟨Iff.intro (fun hc => by simp at hc) (fun hc => absurd hc h),
      fun hc => by simp at hc, fun _ => rfl,
      fun hlv => by simp [get_id_range, hlv]⟩

/-- C6 witness: a cursor of 2 against an existing maximum of 3 enters
gap-fill and lands the cursor at the maximum plus one, and a loaded
high-water mark of 5 puts the frontier start at 6. -/
theorem C6_gap_fill_witness :
    (gapFillPhase {3} none 2).2 = ({3} : Finset Nat).sup id + 1
    ∧ (get_id_range (some mdEx) 5 [] none).2.1 = 5 + 1 := by
  have h := C6_gap_fill {3} none 2 mdEx 5 []
  exact ⟨h.2.1 (by decide), h.2.2.2 (by decide)⟩

end MGS
